import Mathlib

/-! # Hangman game engine (`script.js`)

A shallow embedding of the two engine modules of `script.js`:

* `gameData`  : the word catalog `words` and `getRandomWord`;
* `gameState` : the session object `state` with `resetGame`, `startNewGame`,
  `generateHintLetters`, `makeGuess` and `getState`.

Conventions of the embedding.

* JavaScript strings are Lean `String`s (sequences of code points).
* The mutable session object is an explicit `State` value threaded through
  every operation; an operation returns its completion together with the
  state it leaves behind, so a `TypeError` thrown half-way keeps the writes
  made before it.
* The counters `wins`, `losses`, `wrongGuesses` are natural numbers
  (JavaScript numbers are exact on the integers far beyond any count a
  session can reach).
* `Math.random()` is an explicit argument: a binary64 value in `[0, 1)`,
  kept as an exact dyadic fraction so that `Math.floor(r * n)` is computed
  with the rounding of the binary64 product.
* The comparator `() => 0.5 - Math.random()` makes the order produced by
  `sort` arbitrary; the rearrangement is an explicit argument `sh`, and
  `IsShuffle sh` says that it only permutes its input.
-/

namespace Hangman

/-! ## Completions -/

/-- Outcome of a JavaScript call: a returned value, or a thrown `TypeError`. -/
inductive Completion (α : Type) where
  | normal (value : α) : Completion α
  | typeError : Completion α
deriving DecidableEq

/-! ## Game Data Module -/

/-- One catalog entry `{ word, hint }`. -/
structure WordEntry where
  word : String
  hint : String
deriving DecidableEq

/-- The property lookup `words[theme]` of the catalog object; `none` is
`undefined`. -/
def words (theme : String) : Option (List WordEntry) :=
  if theme = "cities" then
    some [
      ⟨"WASHINGTON", "Capital of the United States"⟩,
      ⟨"LISBON", "Capital of Portugal"⟩,
      ⟨"BANGKOK", "Capital of Thailand"⟩,
      ⟨"LEIPZIG", "German city known for its trade fairs"⟩,
      ⟨"LIVERPOOL", "Home of The Beatles"⟩,
      ⟨"FLORENCE", "Italian city known for Renaissance art"⟩]
  else if theme = "fruits" then
    some [
      ⟨"PINEAPPLE", "Tropical fruit with spiky skin"⟩,
      ⟨"STRAWBERRY", "Red, heart-shaped berry"⟩,
      ⟨"WATERMELON", "Large, juicy summer fruit"⟩,
      ⟨"BLACKBERRY", "Dark purple, aggregate fruit"⟩,
      ⟨"DRAGON FRUIT", "Tropical fruit with bright pink skin"⟩]
  else if theme = "food" then
    some [
      ⟨"CROISSANT", "Buttery, flaky French pastry"⟩,
      ⟨"FROMAGE", "French word for cheese"⟩,
      ⟨"BAGUETTE", "Long, thin French bread"⟩,
      ⟨"PAIN AU CHOCOLAT", "Chocolate-filled pastry"⟩,
      ⟨"CASSOULET", "French bean and meat stew"⟩]
  else none

/-- A value of `Math.random()`: a binary64 number `mant / 2 ^ exp` with
`0 ≤ mant / 2 ^ exp < 1`.  Every binary64 value of `[0, 1)` has this form
with a significand below `2 ^ 53` and a scale of at most `1074`. -/
structure RandomValue where
  mant : Nat
  exp : Nat
  mant_lt : mant < 2 ^ 53
  exp_le : exp ≤ 1074
  lt_one : mant < 2 ^ exp

/-- The significand of the binary64 product: `p` rounded to 53 significant
bits, ties to even, after dropping `s` low bits. -/
def roundHalfEven (p s : Nat) : Nat :=
  let q := p / 2 ^ s
  let rest := p % 2 ^ s
  let half := 2 ^ (s - 1)
  if half < rest ∨ (rest = half ∧ q % 2 = 1) then q + 1 else q

/-- The index expression `Math.floor(Math.random() * themeWords.length)` for
the random value `r` and the array length `n`.  The exact product is
`r.mant * n / 2 ^ r.exp`; when its numerator needs more than 53 bits the
binary64 product is the numerator rounded to 53 significant bits. -/
def randomIndex (r : RandomValue) (n : Nat) : Nat :=
  let p := r.mant * n
  if p < 2 ^ 53 then p / 2 ^ r.exp
  else
    let s := Nat.log2 p - 52
    roundHalfEven p s * 2 ^ s / 2 ^ r.exp

/-- The function `getRandomWord`.  `typeError` is the `TypeError` of
`themeWords.length` on an absent theme; `normal none` is the value
`undefined` of an index outside the array. -/
def getRandomWord (theme : String) (r : RandomValue) : Completion (Option WordEntry) :=
  match words theme with
  | none => .typeError
  | some themeWords => .normal (themeWords.get? (randomIndex r themeWords.length))

/-! ## Game State Module -/

/-- The session object `state`. -/
structure State where
  wins : Nat
  losses : Nat
  currentTheme : Option String
  currentWord : Option String
  currentHint : Option String
  guessedLetters : List String
  wrongGuesses : Nat
  maxWrongGuesses : Nat
  gameOver : Bool
  hintLetters : List String
deriving DecidableEq

/-- The initial value of `state`. -/
def initialState : State where
  wins := 0
  losses := 0
  currentTheme := none
  currentWord := none
  currentHint := none
  guessedLetters := []
  wrongGuesses := 0
  maxWrongGuesses := 6
  gameOver := false
  hintLetters := []

/-- The function `resetGame`. -/
def resetGame (s : State) : State :=
  { s with guessedLetters := [], wrongGuesses := 0, gameOver := false, hintLetters := [] }

/-- The string method `includes`: `letter` occurs in `word` as a contiguous
substring. -/
def strIncludes (word letter : String) : Bool :=
  decide (letter.data <:+: word.data)

/-- The constructor `new Set(iterable)` read back with `Array.from`: each
element is added unless already present, insertion order kept. -/
def arrayFromSet {α : Type} [DecidableEq α] (xs : List α) : List α :=
  xs.foldl (fun acc x => if x ∈ acc then acc else acc ++ [x]) []

/-- The expression `Array.from(new Set(word.replace(/ /g, '')))`: the
distinct non-space letters of `word`, each a one-character string, in order
of first occurrence. -/
def uniqueLetters (word : String) : List String :=
  arrayFromSet ((word.data.filter (fun c => c ≠ ' ')).map (fun c => String.mk [c]))

/-- A rearrangement that `sort` with the random comparator may produce. -/
def IsShuffle (sh : List String → List String) : Prop :=
  ∀ l, (sh l).Perm l

/-- The function `generateHintLetters`; `sh` is the order the random `sort`
produces. -/
def generateHintLetters (s : State) (sh : List String → List String) :
    Completion Unit × State :=
  match s.currentWord with
  | none => (.typeError, s)
  | some word =>
    let uniq := uniqueLetters word
    let shuffled := sh uniq
    (.normal (), { s with hintLetters := shuffled.take (min 3 uniq.length) })

/-- The function `startNewGame`; `r` is the value `Math.random()` returns
inside `getRandomWord`, `sh` the order produced by the random `sort`. -/
def startNewGame (s : State) (theme : String) (r : RandomValue)
    (sh : List String → List String) : Completion Unit × State :=
  let s1 := resetGame s
  match getRandomWord theme r with
  | .typeError => (.typeError, s1)
  | .normal none => (.typeError, s1)
  | .normal (some entry) =>
    generateHintLetters
      { s1 with currentTheme := some theme, currentWord := some entry.word,
                currentHint := some entry.hint } sh

/-- The test of the win branch: every distinct non-space letter of `word` is
in `guessed`. -/
def allLettersGuessed (word : String) (guessed : List String) : Bool :=
  (uniqueLetters word).all (fun l => guessed.contains l)

/-- The function `makeGuess`. -/
def makeGuess (s : State) (letter : String) : Completion Bool × State :=
  if s.gameOver || s.guessedLetters.contains letter then (.normal false, s)
  else
    let s1 := { s with guessedLetters := s.guessedLetters ++ [letter] }
    match s1.currentWord with
    | none => (.typeError, s1)
    | some word =>
      if !strIncludes word letter then
        let s2 := { s1 with wrongGuesses := s1.wrongGuesses + 1 }
        if s2.wrongGuesses ≥ s2.maxWrongGuesses then
          (.normal false, { s2 with gameOver := true, losses := s2.losses + 1 })
        else (.normal false, s2)
      else if allLettersGuessed word s1.guessedLetters then
        (.normal true, { s1 with gameOver := true, wins := s1.wins + 1 })
      else (.normal true, s1)

/-- A run of `makeGuess` calls, one per element of `letters`, in order. -/
def guessAll (s : State) (letters : List String) : State :=
  letters.foldl (fun st letter => (makeGuess st letter).2) s

/-- The number of elements of `guessed` that do not occur in `word`. -/
def absentCount (word : String) (guessed : List String) : Nat :=
  (guessed.filter (fun l => !strIncludes word l)).length

/-! ## Sessions reachable through the engine's interface -/

/-- How far a session has come: no game started yet; a game started and
its per-game fields not cleared since; or cleared by `resetGame` after a
game was started. -/
inductive Progress where
  | notStarted : Progress
  | started : Progress
  | cleared : Progress
deriving DecidableEq

/-- The progress after a `resetGame` call. -/
def Progress.afterReset : Progress → Progress
  | .notStarted => .notStarted
  | .started => .cleared
  | .cleared => .cleared

/-- The sessions that calls of `startNewGame` (on a catalog theme),
`resetGame` and `makeGuess` produce from the initial session, for every
outcome of the random choices. -/
inductive Reachable : Progress → State → Prop where
  | init : Reachable .notStarted initialState
  | reset {p : Progress} {s : State} :
      Reachable p s → Reachable p.afterReset (resetGame s)
  | start {p : Progress} {s : State} (theme : String) (r : RandomValue)
      (sh : List String → List String) :
      Reachable p s → (words theme).isSome = true → IsShuffle sh →
      Reachable .started (startNewGame s theme r sh).2
  | guess {p : Progress} {s : State} (letter : String) :
      Reachable p s → Reachable p (makeGuess s letter).2

/-! ## The session with its arrays held by reference

`state.guessedLetters` and `state.hintLetters` are JavaScript arrays: the
object `state` holds references to them, `push` writes through the
reference, and the spread `{ ...state }` of `getState` copies the
references.  The definitions below keep the arrays in a heap so that the
sharing is visible. -/

/-- A reference to an array: its position in the heap. -/
abbrev Ref := Nat

/-- The arrays allocated so far. -/
abbrev Heap := List (List String)

/-- Allocation of a new array with the given contents. -/
def Heap.alloc (h : Heap) (arr : List String) : Ref × Heap :=
  (h.length, h ++ [arr])

/-- The contents of the array behind a reference. -/
def Heap.read (h : Heap) (ref : Ref) : List String :=
  h.getD ref []

/-- The array method `push` through a reference. -/
def Heap.push (h : Heap) (ref : Ref) (x : String) : Heap :=
  h.modify (fun arr => arr ++ [x]) ref

/-- The properties of the object `state`, with the two arrays as
references. -/
structure StateObject where
  wins : Nat
  losses : Nat
  currentTheme : Option String
  currentWord : Option String
  currentHint : Option String
  guessedLetters : Ref
  wrongGuesses : Nat
  maxWrongGuesses : Nat
  gameOver : Bool
  hintLetters : Ref
deriving DecidableEq

/-- The heap together with the object `state` of the engine. -/
structure Engine where
  heap : Heap
  state : StateObject
deriving DecidableEq

/-- The engine at load time: two empty arrays and the initial properties. -/
def Engine.initial : Engine where
  heap := [[], []]
  state :=
    { wins := 0, losses := 0, currentTheme := none, currentWord := none,
      currentHint := none, guessedLetters := 0, wrongGuesses := 0,
      maxWrongGuesses := 6, gameOver := false, hintLetters := 1 }

/-- The function `resetGame`: both array properties receive new empty
arrays. -/
def Engine.resetGame (e : Engine) : Engine :=
  let (g, h1) := e.heap.alloc []
  let (h, h2) := h1.alloc []
  { heap := h2,
    state := { e.state with guessedLetters := g, wrongGuesses := 0, gameOver := false,
                            hintLetters := h } }

/-- The function `generateHintLetters`: `slice` returns a new array. -/
def Engine.generateHintLetters (e : Engine) (sh : List String → List String) :
    Completion Unit × Engine :=
  match e.state.currentWord with
  | none => (.typeError, e)
  | some word =>
    let uniq := uniqueLetters word
    let shuffled := sh uniq
    let (h, h1) := e.heap.alloc (shuffled.take (min 3 uniq.length))
    (.normal (), { heap := h1, state := { e.state with hintLetters := h } })

/-- The function `startNewGame`. -/
def Engine.startNewGame (e : Engine) (theme : String) (r : RandomValue)
    (sh : List String → List String) : Completion Unit × Engine :=
  let e1 := e.resetGame
  match getRandomWord theme r with
  | .typeError => (.typeError, e1)
  | .normal none => (.typeError, e1)
  | .normal (some entry) =>
    Engine.generateHintLetters
      { e1 with state := { e1.state with currentTheme := some theme,
                                         currentWord := some entry.word,
                                         currentHint := some entry.hint } } sh

/-- The function `makeGuess`: `push` writes into the array that
`state.guessedLetters` refers to. -/
def Engine.makeGuess (e : Engine) (letter : String) : Completion Bool × Engine :=
  if e.state.gameOver || (e.heap.read e.state.guessedLetters).contains letter then
    (.normal false, e)
  else
    let e1 := { e with heap := e.heap.push e.state.guessedLetters letter }
    match e1.state.currentWord with
    | none => (.typeError, e1)
    | some word =>
      if !strIncludes word letter then
        let e2 := { e1 with state := { e1.state with wrongGuesses := e1.state.wrongGuesses + 1 } }
        if e2.state.wrongGuesses ≥ e2.state.maxWrongGuesses then
          (.normal false,
            { e2 with state := { e2.state with gameOver := true,
                                               losses := e2.state.losses + 1 } })
        else (.normal false, e2)
      else if allLettersGuessed word (e1.heap.read e1.state.guessedLetters) then
        (.normal true,
          { e1 with state := { e1.state with gameOver := true, wins := e1.state.wins + 1 } })
      else (.normal true, e1)

/-- The function `getState`: the spread `{ ...state }` builds a new object
with the same property values, the two array references among them. -/
def Engine.getState (e : Engine) : StateObject :=
  { wins := e.state.wins, losses := e.state.losses, currentTheme := e.state.currentTheme,
    currentWord := e.state.currentWord, currentHint := e.state.currentHint,
    guessedLetters := e.state.guessedLetters, wrongGuesses := e.state.wrongGuesses,
    maxWrongGuesses := e.state.maxWrongGuesses, gameOver := e.state.gameOver,
    hintLetters := e.state.hintLetters }

/-- The session a caller reads off the engine: every property of `state`,
the arrays by their contents. -/
def Engine.view (e : Engine) : State where
  wins := e.state.wins
  losses := e.state.losses
  currentTheme := e.state.currentTheme
  currentWord := e.state.currentWord
  currentHint := e.state.currentHint
  guessedLetters := e.heap.read e.state.guessedLetters
  wrongGuesses := e.state.wrongGuesses
  maxWrongGuesses := e.state.maxWrongGuesses
  gameOver := e.state.gameOver
  hintLetters := e.heap.read e.state.hintLetters

/-- The two array properties refer to two different allocated arrays. -/
def Engine.WellFormed (e : Engine) : Prop :=
  e.state.guessedLetters < e.heap.length ∧ e.state.hintLetters < e.heap.length ∧
  e.state.guessedLetters ≠ e.state.hintLetters

/-! ## Concrete values used in the examples -/

/-- The random value `3 / 16`. -/
def threeSixteenths : RandomValue := ⟨3, 4, by decide, by decide, by decide⟩

/-- A random value whose index into an array of length `n ≤ 16` is `i`. -/
def randomFor (i n : Nat) : RandomValue :=
  ⟨min ((16 * i + n - 1) / n) 15, 4,
    lt_of_le_of_lt (Nat.min_le_right _ _) (by decide), by decide,
    lt_of_le_of_lt (Nat.min_le_right _ _) (by decide)⟩

/-- A session in which a game on the word `CAT` has just started. -/
def catGame : State :=
  { initialState with currentTheme := some "animals", currentWord := some "CAT",
                      currentHint := some "Pet that purrs", hintLetters := ["A", "C", "T"] }

/-- The session after `startNewGame('cities')` drew `LISBON`. -/
def lisbonGame : State := (startNewGame initialState "cities" threeSixteenths id).2

/-- The engine after `startNewGame('cities')` drew `LISBON`. -/
def lisbonEngine : Engine := (Engine.initial.startNewGame "cities" threeSixteenths id).2

/-! ## Basic facts about the helpers -/

theorem mem_foldl_insert {α : Type} [DecidableEq α] (xs : List α) (acc : List α) (x : α) :
    x ∈ xs.foldl (fun acc x => if x ∈ acc then acc else acc ++ [x]) acc ↔ x ∈ acc ∨ x ∈ xs := by
  induction xs generalizing acc with
  | nil => simp
  | cons y ys ih =>
    rw [List.foldl_cons, ih]
    by_cases hy : y ∈ acc
    · simp only [hy, if_true, List.mem_cons]
      constructor
      · rintro (h | h)
        · exact Or.inl h
        · exact Or.inr (Or.inr h)
      · rintro (h | h | h)
        · exact Or.inl h
        · exact Or.inl (h ▸ hy)
        · exact Or.inr h
    · simp only [hy, if_false, List.mem_append, List.mem_singleton, List.mem_cons]
      tauto

theorem nodup_foldl_insert {α : Type} [DecidableEq α] (xs : List α) (acc : List α)
    (h : acc.Nodup) :
    (xs.foldl (fun acc x => if x ∈ acc then acc else acc ++ [x]) acc).Nodup := by
  induction xs generalizing acc with
  | nil => simpa using h
  | cons y ys ih =>
    rw [List.foldl_cons]
    apply ih
    by_cases hy : y ∈ acc
    · simpa [hy] using h
    · simp only [hy, if_false]
      rw [List.nodup_append]
      refine ⟨h, List.nodup_singleton y, ?_⟩
      intro a ha hb
      rw [List.mem_singleton] at hb
      exact hy (hb ▸ ha)

theorem mem_arrayFromSet {α : Type} [DecidableEq α] (xs : List α) (x : α) :
    x ∈ arrayFromSet xs ↔ x ∈ xs := by
  simp [arrayFromSet, mem_foldl_insert]

theorem nodup_arrayFromSet {α : Type} [DecidableEq α] (xs : List α) :
    (arrayFromSet xs).Nodup :=
  nodup_foldl_insert xs [] List.nodup_nil

theorem mem_uniqueLetters (word l : String) :
    l ∈ uniqueLetters word ↔ ∃ c, c ∈ word.data ∧ c ≠ ' ' ∧ l = String.mk [c] := by
  simp only [uniqueLetters, mem_arrayFromSet, List.mem_map, List.mem_filter,
    decide_eq_true_eq]
  constructor
  · rintro ⟨c, ⟨hc, hsp⟩, rfl⟩
    exact ⟨c, hc, hsp, rfl⟩
  · rintro ⟨c, hc, hsp, rfl⟩
    exact ⟨c, ⟨hc, hsp⟩, rfl⟩

theorem nodup_uniqueLetters (word : String) : (uniqueLetters word).Nodup :=
  nodup_arrayFromSet _

theorem strIncludes_of_mem_uniqueLetters {word l : String} (h : l ∈ uniqueLetters word) :
    strIncludes word l = true := by
  obtain ⟨c, hc, -, rfl⟩ := (mem_uniqueLetters word l).1 h
  obtain ⟨s, t, hst⟩ := List.append_of_mem hc
  simp only [strIncludes, decide_eq_true_eq]
  exact ⟨s, t, by simp [hst]⟩

theorem allLettersGuessed_iff (word : String) (guessed : List String) :
    allLettersGuessed word guessed = true ↔ ∀ l ∈ uniqueLetters word, l ∈ guessed := by
  simp [allLettersGuessed, List.all_eq_true]

/-- An absent letter adds nothing to the letters of the word that are
guessed. -/
theorem allLettersGuessed_append_absent (word letter : String) (guessed : List String)
    (h : strIncludes word letter = false) :
    allLettersGuessed word (guessed ++ [letter]) = allLettersGuessed word guessed := by
  rw [Bool.eq_iff_iff, allLettersGuessed_iff, allLettersGuessed_iff]
  constructor
  · intro hall l hl
    have := hall l hl
    rw [List.mem_append, List.mem_singleton] at this
    rcases this with hg | rfl
    · exact hg
    · rw [strIncludes_of_mem_uniqueLetters hl] at h
      exact absurd h (by simp)
  · intro hall l hl
    exact List.mem_append_left _ (hall l hl)

theorem absentCount_append (word letter : String) (guessed : List String) :
    absentCount word (guessed ++ [letter]) =
      absentCount word guessed + (if strIncludes word letter then 0 else 1) := by
  unfold absentCount
  rw [List.filter_append, List.length_append]
  by_cases h : strIncludes word letter = true <;> simp [h]

/-! ## The three ways a `makeGuess` call can go -/

theorem makeGuess_ignored (s : State) (letter : String)
    (h : s.gameOver = true ∨ letter ∈ s.guessedLetters) :
    makeGuess s letter = (.normal false, s) := by
  unfold makeGuess
  rcases h with h | h <;> simp [h]

theorem makeGuess_absent (s : State) (letter word : String)
    (hover : s.gameOver = false) (hnew : letter ∉ s.guessedLetters)
    (hword : s.currentWord = some word) (habs : strIncludes word letter = false) :
    makeGuess s letter =
      (.normal false,
        if s.wrongGuesses + 1 ≥ s.maxWrongGuesses then
          { s with guessedLetters := s.guessedLetters ++ [letter],
                   wrongGuesses := s.wrongGuesses + 1, gameOver := true,
                   losses := s.losses + 1 }
        else
          { s with guessedLetters := s.guessedLetters ++ [letter],
                   wrongGuesses := s.wrongGuesses + 1 }) := by
  have hc : s.guessedLetters.contains letter = false := by simpa using hnew
  unfold makeGuess
  by_cases hmax : s.wrongGuesses + 1 ≥ s.maxWrongGuesses <;>
    simp [hover, hc, hnew, hword, habs, hmax]

theorem makeGuess_present (s : State) (letter word : String)
    (hover : s.gameOver = false) (hnew : letter ∉ s.guessedLetters)
    (hword : s.currentWord = some word) (hpres : strIncludes word letter = true) :
    makeGuess s letter =
      (.normal true,
        if allLettersGuessed word (s.guessedLetters ++ [letter]) then
          { s with guessedLetters := s.guessedLetters ++ [letter], gameOver := true,
                   wins := s.wins + 1 }
        else { s with guessedLetters := s.guessedLetters ++ [letter] }) := by
  have hc : s.guessedLetters.contains letter = false := by simpa using hnew
  unfold makeGuess
  by_cases hall : allLettersGuessed word (s.guessedLetters ++ [letter]) = true <;>
    simp [hover, hc, hnew, hword, hpres, hall]

theorem makeGuess_noWord (s : State) (letter : String)
    (hover : s.gameOver = false) (hnew : letter ∉ s.guessedLetters)
    (hword : s.currentWord = none) :
    makeGuess s letter =
      (.typeError, { s with guessedLetters := s.guessedLetters ++ [letter] }) := by
  unfold makeGuess
  simp [hover, hnew, hword]

/-! ## The random index -/

theorem roundHalfEven_mul_le (p s : Nat) (hs : 1 ≤ s) :
    roundHalfEven p s * 2 ^ s ≤ p + 2 ^ (s - 1) := by
  have hpow : 2 ^ s = 2 * 2 ^ (s - 1) := by
    obtain ⟨k, rfl⟩ : ∃ k, s = k + 1 := ⟨s - 1, by omega⟩
    simp [pow_succ, Nat.mul_comm]
  have hdiv : p / 2 ^ s * 2 ^ s + p % 2 ^ s = p := by
    rw [Nat.mul_comm]; exact Nat.div_add_mod p (2 ^ s)
  unfold roundHalfEven
  simp only
  split
  · rename_i h
    have hrest : 2 ^ (s - 1) ≤ p % 2 ^ s := by
      rcases h with h | ⟨h, -⟩
      · exact Nat.le_of_lt h
      · exact Nat.le_of_eq h.symm
    rw [Nat.add_mul, Nat.one_mul]
    omega
  · omega

theorem randomIndex_lt (r : RandomValue) (n : Nat) (hn : 0 < n) : randomIndex r n < n := by
  have hle : (r.mant + 1) * n ≤ 2 ^ r.exp * n := Nat.mul_le_mul_right n r.lt_one
  have hpos : 0 < 2 ^ r.exp := Nat.pos_pow_of_pos _ (by decide)
  unfold randomIndex
  simp only
  split
  · rw [Nat.div_lt_iff_lt_mul hpos]
    rw [Nat.add_mul, Nat.one_mul] at hle
    rw [Nat.mul_comm n]
    omega
  · rename_i hbig
    have hbig : 2 ^ 53 ≤ r.mant * n := Nat.le_of_not_lt hbig
    have hne : r.mant * n ≠ 0 := by
      intro h0; rw [h0] at hbig; exact absurd hbig (by decide)
    have hlog : 53 ≤ (r.mant * n).log2 := (Nat.le_log2 hne).2 hbig
    have hself : 2 ^ (r.mant * n).log2 ≤ r.mant * n := Nat.log2_self_le hne
    have hs : 1 ≤ (r.mant * n).log2 - 52 := by omega
    have hsplit : 2 ^ (r.mant * n).log2 = 2 ^ ((r.mant * n).log2 - 52 - 1) * 2 ^ 53 := by
      rw [← pow_add]; congr 1; omega
    have hhalf : 2 ^ ((r.mant * n).log2 - 52 - 1) < n := by
      have h1 : 2 ^ ((r.mant * n).log2 - 52 - 1) * 2 ^ 53 < n * 2 ^ 53 := by
        calc 2 ^ ((r.mant * n).log2 - 52 - 1) * 2 ^ 53 ≤ r.mant * n := hsplit ▸ hself
          _ < 2 ^ 53 * n := Nat.mul_lt_mul_of_pos_right r.mant_lt hn
          _ = n * 2 ^ 53 := Nat.mul_comm _ _
      exact Nat.lt_of_mul_lt_mul_right h1
    have hround := roundHalfEven_mul_le (r.mant * n) ((r.mant * n).log2 - 52) hs
    rw [Nat.div_lt_iff_lt_mul hpos]
    rw [Nat.add_mul, Nat.one_mul] at hle
    rw [Nat.mul_comm n]
    omega

/-! ## The catalog -/

theorem words_cases {theme : String} {themeWords : List WordEntry}
    (h : words theme = some themeWords) :
    (theme = "cities" ∧ words "cities" = some themeWords) ∨
    (theme = "fruits" ∧ words "fruits" = some themeWords) ∨
    (theme = "food" ∧ words "food" = some themeWords) := by
  by_cases h1 : theme = "cities"
  · subst h1; exact Or.inl ⟨rfl, h⟩
  · by_cases h2 : theme = "fruits"
    · subst h2; exact Or.inr (Or.inl ⟨rfl, h⟩)
    · by_cases h3 : theme = "food"
      · subst h3; exact Or.inr (Or.inr ⟨rfl, h⟩)
      · simp [words, h1, h2, h3] at h

theorem words_length {theme : String} {themeWords : List WordEntry}
    (h : words theme = some themeWords) : themeWords.length = 5 ∨ themeWords.length = 6 := by
  rcases words_cases h with ⟨-, h⟩ | ⟨-, h⟩ | ⟨-, h⟩ <;>
    · have := Option.some.inj h
      subst this
      decide

theorem words_hasLetter {theme : String} {themeWords : List WordEntry}
    (h : words theme = some themeWords) :
    ∀ e ∈ themeWords, uniqueLetters e.word ≠ [] := by
  rcases words_cases h with ⟨-, h⟩ | ⟨-, h⟩ | ⟨-, h⟩ <;>
    · have := Option.some.inj h
      subst this
      decide

theorem randomIndex_randomFor (n : Nat) (hn : n = 5 ∨ n = 6) :
    ∀ i < n, randomIndex (randomFor i n) n = i := by
  rcases hn with rfl | rfl <;> decide

theorem getRandomWord_eq {theme : String} {themeWords : List WordEntry}
    (h : words theme = some themeWords) (r : RandomValue) :
    ∃ e, e ∈ themeWords ∧ themeWords.get? (randomIndex r themeWords.length) = some e ∧
      getRandomWord theme r = .normal (some e) := by
  have hn : 0 < themeWords.length := by rcases words_length h with h | h <;> omega
  have hlt := randomIndex_lt r themeWords.length hn
  refine ⟨themeWords.get ⟨_, hlt⟩, List.get_mem _ _ _, List.get?_eq_get hlt, ?_⟩
  simp only [getRandomWord, h]
  rw [List.get?_eq_get hlt]

/-! ## What `startNewGame` and `makeGuess` leave behind -/

theorem startNewGame_eq {theme : String} {themeWords : List WordEntry}
    (h : words theme = some themeWords) (s : State) (r : RandomValue)
    (sh : List String → List String) :
    ∃ e, e ∈ themeWords ∧ themeWords.get? (randomIndex r themeWords.length) = some e ∧
      startNewGame s theme r sh =
        (.normal (),
          { wins := s.wins, losses := s.losses, currentTheme := some theme,
            currentWord := some e.word, currentHint := some e.hint, guessedLetters := [],
            wrongGuesses := 0, maxWrongGuesses := s.maxWrongGuesses, gameOver := false,
            hintLetters :=
              (sh (uniqueLetters e.word)).take (min 3 (uniqueLetters e.word).length) }) := by
  obtain ⟨e, hmem, hget, hrand⟩ := getRandomWord_eq h r
  refine ⟨e, hmem, hget, ?_⟩
  simp [startNewGame, hrand, generateHintLetters, resetGame]

theorem makeGuess_cases (s : State) (letter : String) :
    ((s.gameOver = true ∨ letter ∈ s.guessedLetters) ∧
      makeGuess s letter = (.normal false, s)) ∨
    (s.gameOver = false ∧ letter ∉ s.guessedLetters ∧ s.currentWord = none ∧
      makeGuess s letter =
        (.typeError, { s with guessedLetters := s.guessedLetters ++ [letter] })) ∨
    (∃ word, s.gameOver = false ∧ letter ∉ s.guessedLetters ∧ s.currentWord = some word ∧
      strIncludes word letter = false ∧
      makeGuess s letter =
        (.normal false,
          if s.wrongGuesses + 1 ≥ s.maxWrongGuesses then
            { s with guessedLetters := s.guessedLetters ++ [letter],
                     wrongGuesses := s.wrongGuesses + 1, gameOver := true,
                     losses := s.losses + 1 }
          else
            { s with guessedLetters := s.guessedLetters ++ [letter],
                     wrongGuesses := s.wrongGuesses + 1 })) ∨
    (∃ word, s.gameOver = false ∧ letter ∉ s.guessedLetters ∧ s.currentWord = some word ∧
      strIncludes word letter = true ∧
      makeGuess s letter =
        (.normal true,
          if allLettersGuessed word (s.guessedLetters ++ [letter]) then
            { s with guessedLetters := s.guessedLetters ++ [letter], gameOver := true,
                     wins := s.wins + 1 }
          else { s with guessedLetters := s.guessedLetters ++ [letter] })) := by
  by_cases hover : s.gameOver = true
  · exact Or.inl ⟨Or.inl hover, makeGuess_ignored s letter (Or.inl hover)⟩
  · by_cases hmem : letter ∈ s.guessedLetters
    · exact Or.inl ⟨Or.inr hmem, makeGuess_ignored s letter (Or.inr hmem)⟩
    · have hover : s.gameOver = false := by simpa using hover
      rcases Option.eq_none_or_eq_some s.currentWord with hword | ⟨word, hword⟩
      · exact Or.inr (Or.inl ⟨hover, hmem, hword, makeGuess_noWord s letter hover hmem hword⟩)
      · by_cases hinc : strIncludes word letter = true
        · exact Or.inr (Or.inr (Or.inr
            ⟨word, hover, hmem, hword, hinc,
              makeGuess_present s letter word hover hmem hword hinc⟩))
        · have hinc : strIncludes word letter = false := by simpa using hinc
          exact Or.inr (Or.inr (Or.inl
            ⟨word, hover, hmem, hword, hinc,
              makeGuess_absent s letter word hover hmem hword hinc⟩))

theorem makeGuess_frame (s : State) (letter : String) :
    (makeGuess s letter).2.currentTheme = s.currentTheme ∧
    (makeGuess s letter).2.currentWord = s.currentWord ∧
    (makeGuess s letter).2.currentHint = s.currentHint ∧
    (makeGuess s letter).2.hintLetters = s.hintLetters ∧
    (makeGuess s letter).2.maxWrongGuesses = s.maxWrongGuesses := by
  rcases makeGuess_cases s letter with ⟨-, h⟩ | ⟨-, -, -, h⟩ | ⟨w, -, -, -, -, h⟩ |
    ⟨w, -, -, -, -, h⟩
  · simp [h]
  · simp [h]
  · rw [h]; split <;> simp
  · rw [h]; split <;> simp

theorem take_shuffle_length (sh : List String → List String) (hsh : IsShuffle sh)
    (uniq : List String) :
    ((sh uniq).take (min 3 uniq.length)).length = min 3 uniq.length := by
  rw [List.length_take, (hsh uniq).length_eq]
  omega

theorem take_shuffle_nodup (sh : List String → List String) (hsh : IsShuffle sh)
    (uniq : List String) (hu : uniq.Nodup) :
    ((sh uniq).take (min 3 uniq.length)).Nodup :=
  ((hsh uniq).nodup_iff.2 hu).sublist (List.take_sublist _ _)

theorem take_shuffle_subset (sh : List String → List String) (hsh : IsShuffle sh)
    (uniq : List String) :
    ∀ l ∈ (sh uniq).take (min 3 uniq.length), l ∈ uniq :=
  fun _ hl => (hsh uniq).mem_iff.1 (List.mem_of_mem_take hl)

/-! ## Invariants of the reachable sessions -/

theorem reachable_maxWrongGuesses {p : Progress} {s : State} (h : Reachable p s) :
    s.maxWrongGuesses = 6 := by
  induction h with
  | init => rfl
  | reset _ ih => simpa [resetGame] using ih
  | start theme r sh _ hth _ ih =>
    obtain ⟨tw, htw⟩ := Option.isSome_iff_exists.1 hth
    obtain ⟨e, -, -, heq⟩ := startNewGame_eq htw _ r sh
    rw [heq]; exact ih
  | guess letter _ ih => rw [(makeGuess_frame _ letter).2.2.2.2]; exact ih

theorem reachable_currentWord {p : Progress} {s : State} (h : Reachable p s) :
    (p = .notStarted → s.currentWord = none) ∧
    (p ≠ .notStarted → ∃ w, s.currentWord = some w ∧ uniqueLetters w ≠ []) := by
  induction h with
  | init => exact ⟨fun _ => rfl, fun h => absurd rfl h⟩
  | @reset p s _ ih =>
    cases p <;> simpa [Progress.afterReset, resetGame] using ih
  | start theme r sh _ hth _ _ =>
    obtain ⟨tw, htw⟩ := Option.isSome_iff_exists.1 hth
    obtain ⟨e, hmem, -, heq⟩ := startNewGame_eq htw _ r sh
    rw [heq]
    exact ⟨fun h => (by cases h), fun _ => ⟨e.word, rfl, words_hasLetter htw e hmem⟩⟩
  | guess letter _ ih => rw [(makeGuess_frame _ letter).2.1]; exact ih

theorem not_allLettersGuessed_nil {w : String} (h : uniqueLetters w ≠ []) :
    allLettersGuessed w [] = false := by
  cases hu : uniqueLetters w with
  | nil => exact absurd hu h
  | cons x xs => simp [allLettersGuessed, hu]

theorem reachable_gameOver_iff {p : Progress} {s : State} (h : Reachable p s) :
    ∀ w, s.currentWord = some w →
      (s.gameOver = true ↔
        s.wrongGuesses ≥ s.maxWrongGuesses ∨ allLettersGuessed w s.guessedLetters = true) := by
  induction h with
  | init => intro w hw; cases hw
  | @reset p s hs _ =>
    intro w hw
    have hmax := reachable_maxWrongGuesses hs
    have hcur := reachable_currentWord hs
    have hw : s.currentWord = some w := by simpa [resetGame] using hw
    have hp : p ≠ .notStarted := by
      intro hp; rw [hcur.1 hp] at hw; cases hw
    obtain ⟨w', hw', hne⟩ := hcur.2 hp
    rw [hw] at hw'; cases hw'
    simp [resetGame, hmax, not_allLettersGuessed_nil hne]
  | @start p s theme r sh hs hth _ _ =>
    intro w hw
    have hmax := reachable_maxWrongGuesses hs
    obtain ⟨tw, htw⟩ := Option.isSome_iff_exists.1 hth
    obtain ⟨e, hmem, -, heq⟩ := startNewGame_eq htw s r sh
    rw [heq] at hw ⊢
    cases hw
    simp [hmax, not_allLettersGuessed_nil (words_hasLetter htw e hmem)]
  | @guess p s letter hs ih =>
    intro w hw
    rcases makeGuess_cases s letter with ⟨-, h⟩ | ⟨-, -, hnone, h⟩ | ⟨w', hover, -, hw', hinc, h⟩ |
      ⟨w', hover, -, hw', hinc, h⟩
    · rw [h] at hw ⊢; exact ih w hw
    · rw [h] at hw; simp [hnone] at hw
    · rw [h] at hw ⊢
      have hww : w' = w := by
        split at hw <;> simp only [hw'] at hw <;> exact Option.some.inj hw
      subst hww
      have ih' := ih w' hw'
      rw [hover] at ih'
      have hnot : ¬ (s.wrongGuesses ≥ s.maxWrongGuesses) ∧
          allLettersGuessed w' s.guessedLetters = false := by
        simpa [not_or] using ih'
      split
      · rename_i hge; simp [hge]
      · rename_i hge
        simp [hover, hge, allLettersGuessed_append_absent w' letter s.guessedLetters hinc, hnot.2]
    · rw [h] at hw ⊢
      have hww : w' = w := by
        split at hw <;> simp only [hw'] at hw <;> exact Option.some.inj hw
      subst hww
      have ih' := ih w' hw'
      rw [hover] at ih'
      have hnot : ¬ (s.wrongGuesses ≥ s.maxWrongGuesses) ∧
          allLettersGuessed w' s.guessedLetters = false := by
        simpa [not_or] using ih'
      split
      · rename_i hall; simp [hall]
      · rename_i hall
        have hn := hnot.1
        simp [hover, hall, hn]

theorem reachable_wrongGuesses {p : Progress} {s : State} (h : Reachable p s) :
    ∀ w, s.currentWord = some w → s.wrongGuesses = absentCount w s.guessedLetters := by
  induction h with
  | init => intro w hw; cases hw
  | reset _ _ => intro w _; simp [resetGame, absentCount]
  | @start p s theme r sh _ hth _ _ =>
    intro w _
    obtain ⟨tw, htw⟩ := Option.isSome_iff_exists.1 hth
    obtain ⟨e, -, -, heq⟩ := startNewGame_eq htw s r sh
    rw [heq]
    simp [absentCount]
  | @guess p s letter _ ih =>
    intro w hw
    rw [(makeGuess_frame s letter).2.1] at hw
    have ih' := ih w hw
    rcases makeGuess_cases s letter with ⟨-, h⟩ | ⟨-, -, hnone, -⟩ | ⟨w', -, -, hw', hinc, h⟩ |
      ⟨w', -, -, hw', hinc, h⟩
    · rw [h]; exact ih'
    · rw [hnone] at hw; cases hw
    · rw [hw] at hw'; cases hw'
      rw [h]
      split <;> simp [absentCount_append, hinc, ih']
    · rw [hw] at hw'; cases hw'
      rw [h]
      split <;> simp [absentCount_append, hinc, ih']

theorem reachable_hintLetters {p : Progress} {s : State} (h : Reachable p s) :
    ∀ w, s.currentWord = some w →
      (∀ l ∈ s.hintLetters, l ∈ uniqueLetters w) ∧ s.hintLetters.Nodup ∧
      (p = .started → s.hintLetters.length = min 3 (uniqueLetters w).length) ∧
      (p = .cleared → s.hintLetters = []) := by
  induction h with
  | init => intro w hw; cases hw
  | @reset p s _ _ =>
    intro w _
    refine ⟨by simp [resetGame], by simp [resetGame], ?_, fun _ => rfl⟩
    cases p <;> simp [Progress.afterReset]
  | @start p s theme r sh _ hth hsh _ =>
    intro w hw
    obtain ⟨tw, htw⟩ := Option.isSome_iff_exists.1 hth
    obtain ⟨e, -, -, heq⟩ := startNewGame_eq htw s r sh
    rw [heq] at hw ⊢
    cases hw
    exact ⟨take_shuffle_subset sh hsh _, take_shuffle_nodup sh hsh _ (nodup_uniqueLetters _),
      fun _ => take_shuffle_length sh hsh _, fun h => (by cases h)⟩
  | @guess p s letter _ ih =>
    intro w hw
    rw [(makeGuess_frame s letter).2.1] at hw
    rw [(makeGuess_frame s letter).2.2.2.1]
    exact ih w hw

/-! ## Runs of correct guesses -/

theorem allLettersGuessed_mono (w : String) {g₁ g₂ : List String}
    (hsub : ∀ l ∈ g₁, l ∈ g₂) (h : allLettersGuessed w g₁ = true) :
    allLettersGuessed w g₂ = true := by
  rw [allLettersGuessed_iff] at h ⊢
  exact fun l hl => hsub l (h l hl)

theorem guessAll_cons (s : State) (g : String) (letters : List String) :
    guessAll s (g :: letters) = guessAll (makeGuess s g).2 letters := rfl

theorem guessAll_present (w : String) (letters : List String) :
    ∀ s : State, s.currentWord = some w → s.wrongGuesses = 0 →
      s.gameOver = allLettersGuessed w s.guessedLetters →
      (∀ g ∈ letters, strIncludes w g = true) →
      (guessAll s letters).currentWord = some w ∧
      (guessAll s letters).wrongGuesses = 0 ∧
      (guessAll s letters).losses = s.losses ∧
      (guessAll s letters).gameOver =
        allLettersGuessed w (guessAll s letters).guessedLetters ∧
      (guessAll s letters).wins + (if s.gameOver then 1 else 0) =
        s.wins + (if (guessAll s letters).gameOver then 1 else 0) ∧
      (∀ g ∈ s.guessedLetters, g ∈ (guessAll s letters).guessedLetters) ∧
      ((guessAll s letters).gameOver = false →
        ∀ g ∈ letters, g ∈ (guessAll s letters).guessedLetters) := by
  induction letters with
  | nil =>
    intro s hw hwrong hinv _
    exact ⟨hw, hwrong, rfl, hinv, rfl, fun _ h => h, fun _ g hg => absurd hg (List.not_mem_nil g)⟩
  | cons g rest ih =>
    intro s hw hwrong hinv hin
    have hg : strIncludes w g = true := hin g (List.mem_cons_self g rest)
    have hrest : ∀ x ∈ rest, strIncludes w x = true :=
      fun x hx => hin x (List.mem_cons_of_mem g hx)
    rw [guessAll_cons]
    -- the state after the first guess keeps the invariant
    have hstep : (makeGuess s g).2.currentWord = some w ∧ (makeGuess s g).2.wrongGuesses = 0 ∧
        (makeGuess s g).2.losses = s.losses ∧
        (makeGuess s g).2.gameOver = allLettersGuessed w (makeGuess s g).2.guessedLetters ∧
        (makeGuess s g).2.wins + (if s.gameOver then 1 else 0) =
          s.wins + (if (makeGuess s g).2.gameOver then 1 else 0) ∧
        (∀ x ∈ s.guessedLetters, x ∈ (makeGuess s g).2.guessedLetters) ∧
        ((makeGuess s g).2.gameOver = false → g ∈ (makeGuess s g).2.guessedLetters) := by
      rcases makeGuess_cases s g with ⟨hign, h⟩ | ⟨-, -, hnone, -⟩ | ⟨w', -, -, hw', hinc, -⟩ |
        ⟨w', hover, -, hw', -, h⟩
      · rw [h]
        refine ⟨hw, hwrong, rfl, hinv, rfl, fun _ h => h, fun hover => ?_⟩
        rcases hign with hov | hmem
        · rw [hov] at hover; cases hover
        · exact hmem
      · rw [hw] at hnone; cases hnone
      · rw [hw] at hw'; cases hw'
        rw [hg] at hinc; cases hinc
      · rw [hw] at hw'; cases hw'
        rw [h]
        by_cases hall : allLettersGuessed w (s.guessedLetters ++ [g]) = true
        · simp [hall, hw, hwrong, hover]
          intro x hx; exact Or.inl hx
        · simp [hall, hw, hwrong, hover]
          intro x hx; exact Or.inl hx
    obtain ⟨h1, h2, h3, h4, h5, h6, h7⟩ := hstep
    obtain ⟨k1, k2, k3, k4, k5, k6, k7⟩ := ih (makeGuess s g).2 h1 h2 h4 hrest
    refine ⟨k1, k2, k3.trans h3, k4, ?_, fun x hx => k6 x (h6 x hx), ?_⟩
    · omega
    · intro hover x hx
      rcases List.mem_cons.1 hx with rfl | hx
      · apply k6
        apply h7
        -- the game was not over after the first guess either
        by_contra hc
        have hc : (makeGuess s x).2.gameOver = true := by simpa using hc
        rw [h4] at hc
        have := allLettersGuessed_mono w k6 hc
        rw [← k4, hover] at this
        cases this
      · exact k7 hover x hx

/-! ## Sessions used in the examples -/

theorem isShuffle_id : IsShuffle id := fun l => List.Perm.refl l

theorem reachable_lisbonGame : Reachable .started lisbonGame :=
  Reachable.start "cities" threeSixteenths id Reachable.init (by decide) isShuffle_id

theorem startNewGame_wins_losses (s : State) (theme : String) (r : RandomValue)
    (sh : List String → List String) :
    (startNewGame s theme r sh).2.wins = s.wins ∧
    (startNewGame s theme r sh).2.losses = s.losses := by
  unfold startNewGame
  split
  · simp [resetGame]
  · simp [resetGame]
  · simp only [generateHintLetters]
    simp [resetGame]

/-! ## The claims -/

/-- C1: a `makeGuess` call made when `gameOver` is true, or with a letter
that is already in `guessedLetters`, returns `false` and leaves the whole
session (every field of `State`) as it was. -/
theorem makeGuess_rejects_without_change (s : State) (letter : String)
    (h : s.gameOver = true ∨ letter ∈ s.guessedLetters) :
    (makeGuess s letter).1 = .normal false ∧ (makeGuess s letter).2 = s := by
  rw [makeGuess_ignored s letter h]
  exact ⟨rfl, rfl⟩

theorem makeGuess_rejects_without_change_witness :
    (lisbonGame.gameOver = true ∨ "L" ∈ (makeGuess lisbonGame "L").2.guessedLetters) ∧
    (makeGuess (makeGuess lisbonGame "L").2 "L").1 = .normal false ∧
    (makeGuess (makeGuess lisbonGame "L").2 "L").2 = (makeGuess lisbonGame "L").2 :=
  ⟨Or.inr (by decide),
    makeGuess_rejects_without_change (makeGuess lisbonGame "L").2 "L" (Or.inr (by decide))⟩

/-- C2: in every session reached from the initial one by `startNewGame` (on
catalog themes), `resetGame` and `makeGuess` calls, once a game has been
started, `gameOver` is true exactly when `wrongGuesses >= maxWrongGuesses` or
every distinct non-space letter of `currentWord` is in `guessedLetters`. -/
theorem gameOver_iff_lost_or_won (p : Progress) (s : State) (h : Reachable p s)
    (hp : p ≠ .notStarted) :
    ∃ w, s.currentWord = some w ∧
      (s.gameOver = true ↔
        s.wrongGuesses ≥ s.maxWrongGuesses ∨ ∀ l ∈ uniqueLetters w, l ∈ s.guessedLetters) := by
  obtain ⟨w, hw, -⟩ := (reachable_currentWord h).2 hp
  refine ⟨w, hw, ?_⟩
  rw [reachable_gameOver_iff h w hw, allLettersGuessed_iff]

theorem gameOver_iff_lost_or_won_witness :
    Reachable .started lisbonGame ∧ Progress.started ≠ Progress.notStarted ∧
    ∃ w, lisbonGame.currentWord = some w ∧
      (lisbonGame.gameOver = true ↔
        lisbonGame.wrongGuesses ≥ lisbonGame.maxWrongGuesses ∨
          ∀ l ∈ uniqueLetters w, l ∈ lisbonGame.guessedLetters) :=
  ⟨reachable_lisbonGame, by decide,
    gameOver_iff_lost_or_won .started lisbonGame reachable_lisbonGame (by decide)⟩

/-- C3: in every reachable session in which a game has been started,
`wrongGuesses` is the number of elements of `guessedLetters` that do not
occur in `currentWord`. -/
theorem wrongGuesses_eq_absentCount (p : Progress) (s : State) (h : Reachable p s)
    (hp : p ≠ .notStarted) :
    ∃ w, s.currentWord = some w ∧
      s.wrongGuesses = (s.guessedLetters.filter (fun l => !strIncludes w l)).length := by
  obtain ⟨w, hw, -⟩ := (reachable_currentWord h).2 hp
  exact ⟨w, hw, reachable_wrongGuesses h w hw⟩

theorem wrongGuesses_eq_absentCount_witness :
    Reachable .started (makeGuess lisbonGame "X").2 ∧
    Progress.started ≠ Progress.notStarted ∧
    ∃ w, (makeGuess lisbonGame "X").2.currentWord = some w ∧
      (makeGuess lisbonGame "X").2.wrongGuesses =
        ((makeGuess lisbonGame "X").2.guessedLetters.filter
          (fun l => !strIncludes w l)).length :=
  ⟨Reachable.guess "X" reachable_lisbonGame, by decide,
    wrongGuesses_eq_absentCount .started (makeGuess lisbonGame "X").2
      (Reachable.guess "X" reachable_lisbonGame) (by decide)⟩

/-- C4: on every reachable session, `resetGame` and `startNewGame` leave
`wins` and `losses` as they were; a `makeGuess` call that takes `gameOver`
from false to true either ends with `wrongGuesses >= maxWrongGuesses`, adds 1
to `losses` and keeps `wins` (and then the word is not complete), or ends
with every distinct non-space letter of `currentWord` guessed, adds 1 to
`wins` and keeps `losses` (and then `wrongGuesses < maxWrongGuesses`); every
other `makeGuess` call keeps both counters; so neither counter decreases. -/
theorem wins_losses_change_only_at_game_end (p : Progress) (s : State) (h : Reachable p s)
    (letter theme : String) (r : RandomValue) (sh : List String → List String) :
    ((resetGame s).wins = s.wins ∧ (resetGame s).losses = s.losses) ∧
    ((startNewGame s theme r sh).2.wins = s.wins ∧
      (startNewGame s theme r sh).2.losses = s.losses) ∧
    (s.gameOver = false ∧ (makeGuess s letter).2.gameOver = true →
      ((makeGuess s letter).2.wrongGuesses ≥ (makeGuess s letter).2.maxWrongGuesses ∧
        (makeGuess s letter).2.losses = s.losses + 1 ∧
        (makeGuess s letter).2.wins = s.wins ∧
        ¬ ∃ w, (makeGuess s letter).2.currentWord = some w ∧
            ∀ l ∈ uniqueLetters w, l ∈ (makeGuess s letter).2.guessedLetters) ∨
      ((∃ w, (makeGuess s letter).2.currentWord = some w ∧
            ∀ l ∈ uniqueLetters w, l ∈ (makeGuess s letter).2.guessedLetters) ∧
        (makeGuess s letter).2.wins = s.wins + 1 ∧
        (makeGuess s letter).2.losses = s.losses ∧
        (makeGuess s letter).2.wrongGuesses < (makeGuess s letter).2.maxWrongGuesses)) ∧
    (¬ (s.gameOver = false ∧ (makeGuess s letter).2.gameOver = true) →
      (makeGuess s letter).2.wins = s.wins ∧ (makeGuess s letter).2.losses = s.losses) ∧
    s.wins ≤ (makeGuess s letter).2.wins ∧ s.losses ≤ (makeGuess s letter).2.losses := by
  refine ⟨⟨rfl, rfl⟩, startNewGame_wins_losses s theme r sh, ?_⟩
  rcases makeGuess_cases s letter with ⟨-, hg⟩ | ⟨hover, -, -, hg⟩ | ⟨w, hover, -, hw, hinc, hg⟩ |
    ⟨w, hover, -, hw, hinc, hg⟩
  · rw [hg]
    refine ⟨?_, fun _ => ⟨rfl, rfl⟩, Nat.le_refl _, Nat.le_refl _⟩
    rintro ⟨h1, h2⟩
    rw [h1] at h2; cases h2
  · rw [hg]
    refine ⟨?_, fun _ => ⟨rfl, rfl⟩, Nat.le_refl _, Nat.le_refl _⟩
    rintro ⟨-, h2⟩
    rw [show ({ s with guessedLetters := s.guessedLetters ++ [letter] } : State).gameOver
      = s.gameOver from rfl, hover] at h2
    cases h2
  · have hinv := reachable_gameOver_iff h w hw
    rw [hover] at hinv
    have hnot : allLettersGuessed w s.guessedLetters = false := by
      have : ¬ (s.wrongGuesses ≥ s.maxWrongGuesses) ∧
          allLettersGuessed w s.guessedLetters = false := by simpa [not_or] using hinv
      exact this.2
    have hnot' : allLettersGuessed w (s.guessedLetters ++ [letter]) = false := by
      rw [allLettersGuessed_append_absent w letter s.guessedLetters hinc]; exact hnot
    have hcov : ¬ ∃ w', s.currentWord = some w' ∧
        ∀ l ∈ uniqueLetters w', l ∈ s.guessedLetters ++ [letter] := by
      rintro ⟨w', hw', hall⟩
      rw [hw] at hw'; cases hw'
      rw [← allLettersGuessed_iff, hnot'] at hall
      cases hall
    rw [hg]
    by_cases hge : s.wrongGuesses + 1 ≥ s.maxWrongGuesses
    · rw [if_pos hge]
      refine ⟨fun _ => Or.inl ⟨hge, rfl, rfl, hcov⟩, fun hc => ?_, Nat.le_refl _,
        Nat.le_succ _⟩
      exact absurd ⟨hover, rfl⟩ hc
    · rw [if_neg hge]
      refine ⟨?_, fun _ => ⟨rfl, rfl⟩, Nat.le_refl _, Nat.le_refl _⟩
      rintro ⟨-, h2⟩
      rw [hover] at h2; cases h2
  · have hinv := reachable_gameOver_iff h w hw
    rw [hover] at hinv
    have hlt : s.wrongGuesses < s.maxWrongGuesses := by
      have : ¬ (s.wrongGuesses ≥ s.maxWrongGuesses) ∧
          allLettersGuessed w s.guessedLetters = false := by simpa [not_or] using hinv
      omega
    rw [hg]
    by_cases hall : allLettersGuessed w (s.guessedLetters ++ [letter]) = true
    · rw [if_pos hall]
      refine ⟨fun _ => Or.inr ⟨⟨w, hw, (allLettersGuessed_iff _ _).1 hall⟩, rfl, rfl, hlt⟩,
        fun hc => ?_, Nat.le_succ _, Nat.le_refl _⟩
      exact absurd ⟨hover, rfl⟩ hc
    · rw [if_neg hall]
      refine ⟨?_, fun _ => ⟨rfl, rfl⟩, Nat.le_refl _, Nat.le_refl _⟩
      rintro ⟨-, h2⟩
      rw [hover] at h2; cases h2

theorem wins_losses_change_only_at_game_end_witness :
    Reachable .started lisbonGame ∧
    lisbonGame.wins ≤ (makeGuess lisbonGame "L").2.wins ∧
    lisbonGame.losses ≤ (makeGuess lisbonGame "L").2.losses :=
  ⟨reachable_lisbonGame,
    (wins_losses_change_only_at_game_end .started lisbonGame reachable_lisbonGame
      "L" "cities" threeSixteenths id).2.2.2.2⟩

/-- C5: whatever the session before, for a catalog theme and every outcome
of the random choices (`r` for the word, a permutation `sh` for the
shuffle), `startNewGame` returns normally and leaves `guessedLetters` empty,
`wrongGuesses = 0`, `gameOver = false`, `currentWord` and `currentHint` taken
from one entry of the theme, and `hintLetters` without duplicates, of length
`min(3, number of distinct non-space letters of the word)`, each element a
non-space letter occurring in the word. -/
theorem startNewGame_fresh_game (s : State) (theme : String)
    (r : RandomValue) (sh : List String → List String)
    (hth : (words theme).isSome = true) (hsh : IsShuffle sh) :
    (startNewGame s theme r sh).1 = .normal () ∧
    (startNewGame s theme r sh).2.guessedLetters = [] ∧
    (startNewGame s theme r sh).2.wrongGuesses = 0 ∧
    (startNewGame s theme r sh).2.gameOver = false ∧
    (startNewGame s theme r sh).2.currentTheme = some theme ∧
    ∃ themeWords e, words theme = some themeWords ∧ e ∈ themeWords ∧
      (startNewGame s theme r sh).2.currentWord = some e.word ∧
      (startNewGame s theme r sh).2.currentHint = some e.hint ∧
      (startNewGame s theme r sh).2.hintLetters.Nodup ∧
      (startNewGame s theme r sh).2.hintLetters.length = min 3 (uniqueLetters e.word).length ∧
      (∀ l ∈ (startNewGame s theme r sh).2.hintLetters, l ∈ uniqueLetters e.word) ∧
      ∀ l ∈ (startNewGame s theme r sh).2.hintLetters,
        ∃ c, c ∈ e.word.data ∧ c ≠ ' ' ∧ l = String.mk [c] := by
  obtain ⟨themeWords, htw⟩ := Option.isSome_iff_exists.1 hth
  obtain ⟨e, hmem, -, heq⟩ := startNewGame_eq htw s r sh
  rw [heq]
  refine ⟨rfl, rfl, rfl, rfl, rfl, themeWords, e, htw, hmem, rfl, rfl,
    take_shuffle_nodup sh hsh _ (nodup_uniqueLetters _), take_shuffle_length sh hsh _,
    take_shuffle_subset sh hsh _, ?_⟩
  intro l hl
  exact (mem_uniqueLetters e.word l).1 (take_shuffle_subset sh hsh _ l hl)

theorem startNewGame_fresh_game_witness :
    (words "fruits").isSome = true ∧ IsShuffle List.reverse ∧
    (startNewGame lisbonGame "fruits" threeSixteenths List.reverse).2.guessedLetters = [] ∧
    (startNewGame lisbonGame "fruits" threeSixteenths List.reverse).2.gameOver = false :=
  ⟨by decide, fun l => List.reverse_perm l,
    (startNewGame_fresh_game lisbonGame "fruits" threeSixteenths List.reverse
      (by decide) (fun l => List.reverse_perm l)).2.1,
    (startNewGame_fresh_game lisbonGame "fruits" threeSixteenths List.reverse
      (by decide) (fun l => List.reverse_perm l)).2.2.2.1⟩

/-- C6: when the game is not over and a word is set, a `makeGuess` call with
a letter not yet in `guessedLetters` returns true exactly when the letter
occurs in `currentWord`; `guessedLetters` becomes the old sequence with the
letter appended at the end; `wrongGuesses` grows by 1 when the letter does
not occur in the word and is unchanged otherwise; `currentTheme`,
`currentWord`, `currentHint` and `hintLetters` are unchanged. -/
theorem makeGuess_new_letter (s : State) (letter word : String)
    (hover : s.gameOver = false) (hword : s.currentWord = some word)
    (hnew : letter ∉ s.guessedLetters) :
    (makeGuess s letter).1 = .normal (strIncludes word letter) ∧
    ((makeGuess s letter).1 = .normal true ↔ strIncludes word letter = true) ∧
    (makeGuess s letter).2.guessedLetters = s.guessedLetters ++ [letter] ∧
    (makeGuess s letter).2.wrongGuesses =
      s.wrongGuesses + (if strIncludes word letter = true then 0 else 1) ∧
    (makeGuess s letter).2.currentTheme = s.currentTheme ∧
    (makeGuess s letter).2.currentWord = s.currentWord ∧
    (makeGuess s letter).2.currentHint = s.currentHint ∧
    (makeGuess s letter).2.hintLetters = s.hintLetters := by
  obtain ⟨f1, f2, f3, f4, -⟩ := makeGuess_frame s letter
  by_cases hinc : strIncludes word letter = true
  · have e := makeGuess_present s letter word hover hnew hword hinc
    have h2 : (makeGuess s letter).2.guessedLetters = s.guessedLetters ++ [letter] ∧
        (makeGuess s letter).2.wrongGuesses = s.wrongGuesses := by
      rw [e]; split <;> exact ⟨rfl, rfl⟩
    refine ⟨by rw [e, hinc], ?_, h2.1, ?_, f1, f2, f3, f4⟩
    · rw [e, hinc]; simp
    · rw [h2.2, if_pos hinc]; rfl
  · have hinc' : strIncludes word letter = false := by simpa using hinc
    have e := makeGuess_absent s letter word hover hnew hword hinc'
    have h2 : (makeGuess s letter).2.guessedLetters = s.guessedLetters ++ [letter] ∧
        (makeGuess s letter).2.wrongGuesses = s.wrongGuesses + 1 := by
      rw [e]; split <;> exact ⟨rfl, rfl⟩
    refine ⟨by rw [e, hinc'], ?_, h2.1, ?_, f1, f2, f3, f4⟩
    · rw [e, hinc']; simp
    · rw [h2.2, if_neg hinc]

theorem makeGuess_new_letter_witness :
    lisbonGame.gameOver = false ∧ lisbonGame.currentWord = some "LISBON" ∧
    "Q" ∉ lisbonGame.guessedLetters ∧
    (makeGuess lisbonGame "Q").1 = .normal (strIncludes "LISBON" "Q") ∧
    (makeGuess lisbonGame "Q").2.guessedLetters = lisbonGame.guessedLetters ++ ["Q"] :=
  ⟨by decide, by decide, by decide,
    (makeGuess_new_letter lisbonGame "Q" "LISBON" (by decide) (by decide) (by decide)).1,
    (makeGuess_new_letter lisbonGame "Q" "LISBON" (by decide) (by decide) (by decide)).2.2.1⟩

/-- C8 as stated fails: after `startNewGame('cities')` drew `LISBON`, a
`resetGame()` call leaves a reachable session with a started game whose
`hintLetters` is empty, while the word has six distinct letters. -/
theorem hintLetters_length_fails_after_reset :
    Reachable .cleared (resetGame lisbonGame) ∧
    Progress.cleared ≠ Progress.notStarted ∧
    (resetGame lisbonGame).currentWord = some "LISBON" ∧
    (resetGame lisbonGame).hintLetters.length = 0 ∧
    min 3 (uniqueLetters "LISBON").length = 3 ∧
    (resetGame lisbonGame).hintLetters.length ≠ min 3 (uniqueLetters "LISBON").length :=
  ⟨Reachable.reset reachable_lisbonGame, by decide, by decide, by decide, by decide, by decide⟩

/-- C8 (amended): in every reachable session in which a game has been
started, `hintLetters` is a duplicate-free subset of the distinct non-space
letters of `currentWord`; its length is `min(3, number of those letters)` as
long as `resetGame` has not been called since the last `startNewGame`, and
it is empty once `resetGame` has been called since. -/
theorem hintLetters_subset_and_length (p : Progress) (s : State) (h : Reachable p s)
    (hp : p ≠ .notStarted) :
    ∃ w, s.currentWord = some w ∧
      (∀ l ∈ s.hintLetters, l ∈ uniqueLetters w) ∧ s.hintLetters.Nodup ∧
      (p = .started → s.hintLetters.length = min 3 (uniqueLetters w).length) ∧
      (p = .cleared → s.hintLetters = []) := by
  obtain ⟨w, hw, -⟩ := (reachable_currentWord h).2 hp
  exact ⟨w, hw, reachable_hintLetters h w hw⟩

theorem hintLetters_subset_and_length_witness :
    Reachable .started (makeGuess lisbonGame "L").2 ∧
    Progress.started ≠ Progress.notStarted ∧
    ∃ w, (makeGuess lisbonGame "L").2.currentWord = some w ∧
      (∀ l ∈ (makeGuess lisbonGame "L").2.hintLetters, l ∈ uniqueLetters w) ∧
      (makeGuess lisbonGame "L").2.hintLetters.Nodup ∧
      (Progress.started = Progress.started →
        (makeGuess lisbonGame "L").2.hintLetters.length = min 3 (uniqueLetters w).length) ∧
      (Progress.started = Progress.cleared → (makeGuess lisbonGame "L").2.hintLetters = []) :=
  ⟨Reachable.guess "L" reachable_lisbonGame, by decide,
    hintLetters_subset_and_length .started (makeGuess lisbonGame "L").2
      (Reachable.guess "L" reachable_lisbonGame) (by decide)⟩

/-- C9: on a word with at least one letter, starting from the session right
after the game has started (no guesses, no wrong guesses, not over), a run of
`makeGuess` calls whose letters all occur in the word and together contain
every distinct non-space letter of the word ends with `gameOver = true`,
`wins` one more than at the start, `losses` unchanged and
`wrongGuesses = 0`. -/
theorem guesses_covering_word_win (s : State) (w : String) (letters : List String)
    (hletter : uniqueLetters w ≠ [])
    (hword : s.currentWord = some w) (hnone : s.guessedLetters = [])
    (hwrong : s.wrongGuesses = 0) (hover : s.gameOver = false)
    (hocc : ∀ g ∈ letters, strIncludes w g = true)
    (hcover : ∀ l ∈ uniqueLetters w, l ∈ letters) :
    (guessAll s letters).gameOver = true ∧
    (guessAll s letters).wins = s.wins + 1 ∧
    (guessAll s letters).losses = s.losses ∧
    (guessAll s letters).wrongGuesses = 0 := by
  have hinv : s.gameOver = allLettersGuessed w s.guessedLetters := by
    rw [hover, hnone, not_allLettersGuessed_nil hletter]
  obtain ⟨-, k2, k3, k4, k5, -, k7⟩ := guessAll_present w letters s hword hwrong hinv hocc
  have hend : (guessAll s letters).gameOver = true := by
    by_contra hc
    have hc : (guessAll s letters).gameOver = false := by simpa using hc
    have hall : allLettersGuessed w (guessAll s letters).guessedLetters = true :=
      (allLettersGuessed_iff _ _).2 (fun l hl => k7 hc l (hcover l hl))
    rw [← k4, hc] at hall
    cases hall
  refine ⟨hend, ?_, k3, k2⟩
  rw [hover, hend] at k5
  simpa using k5

theorem guesses_covering_word_win_witness :
    uniqueLetters "CAT" ≠ [] ∧ catGame.currentWord = some "CAT" ∧
    catGame.guessedLetters = [] ∧ catGame.wrongGuesses = 0 ∧ catGame.gameOver = false ∧
    (∀ g ∈ ["C", "A", "T"], strIncludes "CAT" g = true) ∧
    (∀ l ∈ uniqueLetters "CAT", l ∈ ["C", "A", "T"]) ∧
    (guessAll catGame ["C", "A", "T"]).gameOver = true ∧
    (guessAll catGame ["C", "A", "T"]).wins = catGame.wins + 1 ∧
    (guessAll catGame ["C", "A", "T"]).losses = catGame.losses ∧
    (guessAll catGame ["C", "A", "T"]).wrongGuesses = 0 :=
  ⟨by decide, by decide, by decide, by decide, by decide, by decide, by decide,
    guesses_covering_word_win catGame "CAT" ["C", "A", "T"] (by decide) (by decide)
      (by decide) (by decide) (by decide) (by decide) (by decide)⟩

/-- C10: for a catalog theme with entries `themeWords` and every random
value `r` of `[0, 1)`, `getRandomWord` returns the entry at index
`Math.floor(r * n)`, that index is below `n = themeWords.length`, so the
result is one of the theme's entries and never `undefined`; every entry is
returned for some `r`.  The catalog `words` is a constant: nothing writes
to it. -/
theorem getRandomWord_in_range_and_onto (theme : String) (themeWords : List WordEntry)
    (hth : words theme = some themeWords) :
    (∀ r : RandomValue,
      getRandomWord theme r =
        .normal (themeWords.get? (randomIndex r themeWords.length)) ∧
      randomIndex r themeWords.length < themeWords.length ∧
      ∃ e, e ∈ themeWords ∧ getRandomWord theme r = .normal (some e)) ∧
    (∀ e ∈ themeWords, ∃ r : RandomValue, getRandomWord theme r = .normal (some e)) := by
  have hlen := words_length hth
  have hn : 0 < themeWords.length := by rcases hlen with h | h <;> omega
  constructor
  · intro r
    obtain ⟨e, hmem, -, heq⟩ := getRandomWord_eq hth r
    refine ⟨?_, randomIndex_lt r _ hn, e, hmem, heq⟩
    simp [getRandomWord, hth]
  · intro e he
    obtain ⟨i, hget⟩ := List.mem_iff_get?.1 he
    obtain ⟨hi, -⟩ := List.get?_eq_some.1 hget
    refine ⟨randomFor i themeWords.length, ?_⟩
    simp only [getRandomWord, hth]
    rw [randomIndex_randomFor _ hlen i hi, hget]

theorem getRandomWord_in_range_and_onto_witness :
    words "food" = some
      [⟨"CROISSANT", "Buttery, flaky French pastry"⟩,
       ⟨"FROMAGE", "French word for cheese"⟩,
       ⟨"BAGUETTE", "Long, thin French bread"⟩,
       ⟨"PAIN AU CHOCOLAT", "Chocolate-filled pastry"⟩,
       ⟨"CASSOULET", "French bean and meat stew"⟩] ∧
    ∃ e, e ∈ [(⟨"CROISSANT", "Buttery, flaky French pastry"⟩ : WordEntry),
       ⟨"FROMAGE", "French word for cheese"⟩,
       ⟨"BAGUETTE", "Long, thin French bread"⟩,
       ⟨"PAIN AU CHOCOLAT", "Chocolate-filled pastry"⟩,
       ⟨"CASSOULET", "French bean and meat stew"⟩] ∧
      getRandomWord "food" threeSixteenths = .normal (some e) :=
  ⟨by decide,
    ((getRandomWord_in_range_and_onto "food" _ (by decide)).1 threeSixteenths).2.2⟩

/-- C7 fails on the code: the object returned by `getState` holds the same
array references as `state`.  After `startNewGame('cities')` drew `LISBON`,
pushing `"L"` onto the snapshot's `guessedLetters` and `"Z"` onto its
`hintLetters` changes what the engine itself reads: `guessedLetters` goes
from empty to `["L"]`, `hintLetters` gains `"Z"`, and `makeGuess("L")`, which
returns true on the untouched engine, is now ignored and returns false. -/
theorem getState_snapshot_shares_arrays :
    lisbonEngine.getState.guessedLetters = lisbonEngine.state.guessedLetters ∧
    lisbonEngine.getState.hintLetters = lisbonEngine.state.hintLetters ∧
    lisbonEngine.view.guessedLetters = [] ∧
    (Engine.mk (lisbonEngine.heap.push lisbonEngine.getState.guessedLetters "L")
      lisbonEngine.state).view.guessedLetters = ["L"] ∧
    lisbonEngine.view.hintLetters = ["L", "I", "S"] ∧
    (Engine.mk (lisbonEngine.heap.push lisbonEngine.getState.hintLetters "Z")
      lisbonEngine.state).view.hintLetters = ["L", "I", "S", "Z"] ∧
    (lisbonEngine.makeGuess "L").1 = .normal true ∧
    (lisbonEngine.makeGuess "L").2.view.guessedLetters = ["L"] ∧
    ((Engine.mk (lisbonEngine.heap.push lisbonEngine.getState.guessedLetters "L")
      lisbonEngine.state).makeGuess "L").1 = .normal false ∧
    ((Engine.mk (lisbonEngine.heap.push lisbonEngine.getState.guessedLetters "L")
      lisbonEngine.state).makeGuess "L").2.view.wins = 0 := by
  decide

/-! ## The engine with references agrees with the session as a value

As long as only the engine's own functions touch the heap, reading the
arrays behind the references gives the `State` that the value-level
functions compute. -/

theorem heap_read_append_length (h : Heap) (arr : List String) :
    Heap.read (h ++ [arr]) h.length = arr := by
  simp [Heap.read, List.getD_eq_getElem?_getD]

theorem heap_read_append_of_lt (h : Heap) (arr : List String) (ref : Ref)
    (hlt : ref < h.length) :
    Heap.read (h ++ [arr]) ref = Heap.read h ref := by
  simp [Heap.read, List.getD_eq_getElem?_getD, List.getElem?_append_left hlt]

theorem heap_read_push_same (h : Heap) (ref : Ref) (x : String) (hlt : ref < h.length) :
    Heap.read (Heap.push h ref x) ref = Heap.read h ref ++ [x] := by
  simp [Heap.read, Heap.push, List.getD_eq_getElem?_getD, List.getElem?_modify, hlt]

theorem heap_read_push_other (h : Heap) (ref ref' : Ref) (x : String) (hne : ref ≠ ref') :
    Heap.read (Heap.push h ref x) ref' = Heap.read h ref' := by
  simp [Heap.read, Heap.push, List.getD_eq_getElem?_getD, List.getElem?_modify, hne]

theorem view_resetGame (e : Engine) : e.resetGame.view = resetGame e.view := by
  have h1 := heap_read_append_length (e.heap ++ [[]]) []
  have h2 := heap_read_append_of_lt (e.heap ++ [[]]) [] e.heap.length (by simp)
  have h3 := heap_read_append_length e.heap []
  simp only [List.length_append, List.length_singleton] at h1 h2
  simp only [Engine.resetGame, Engine.view, resetGame, Heap.alloc, List.length_append,
    List.length_singleton, h1, h2, h3]

theorem wellFormed_resetGame (e : Engine) : e.resetGame.WellFormed := by
  simp [Engine.resetGame, Engine.WellFormed, Heap.alloc]

theorem view_generateHintLetters (e : Engine) (sh : List String → List String)
    (hwf : e.WellFormed) :
    (e.generateHintLetters sh).1 = (generateHintLetters e.view sh).1 ∧
    (e.generateHintLetters sh).2.view = (generateHintLetters e.view sh).2 ∧
    (e.generateHintLetters sh).2.WellFormed := by
  obtain ⟨w1, w2, w3⟩ := hwf
  unfold Engine.generateHintLetters generateHintLetters
  rcases Option.eq_none_or_eq_some e.state.currentWord with hw | ⟨word, hw⟩
  · have hw' : e.view.currentWord = none := hw
    simp only [hw, hw']
    exact ⟨trivial, trivial, w1, w2, w3⟩
  · have hw' : e.view.currentWord = some word := hw
    simp only [hw, hw', Heap.alloc]
    refine ⟨trivial, ?_, ?_, ?_, ?_⟩
    · simp only [Engine.view, heap_read_append_length, heap_read_append_of_lt _ _ _ w1]
    · show e.state.guessedLetters < (e.heap ++ [_]).length
      rw [List.length_append, List.length_singleton]; exact Nat.lt_succ_of_lt w1
    · show e.heap.length < (e.heap ++ [_]).length
      rw [List.length_append, List.length_singleton]; exact Nat.lt_succ_self _
    · exact Nat.ne_of_lt w1

theorem view_startNewGame (e : Engine) (theme : String) (r : RandomValue)
    (sh : List String → List String) :
    (e.startNewGame theme r sh).1 = (startNewGame e.view theme r sh).1 ∧
    (e.startNewGame theme r sh).2.view = (startNewGame e.view theme r sh).2 ∧
    (e.startNewGame theme r sh).2.WellFormed := by
  have hv := view_resetGame e
  have hwf := wellFormed_resetGame e
  unfold Engine.startNewGame startNewGame
  rcases hr : getRandomWord theme r with (_ | entry) | _
  · exact ⟨rfl, hv, hwf⟩
  · simp only
    rw [← hv]
    exact view_generateHintLetters _ sh hwf
  · exact ⟨rfl, hv, hwf⟩

theorem view_makeGuess (e : Engine) (letter : String) (hwf : e.WellFormed) :
    (e.makeGuess letter).1 = (makeGuess e.view letter).1 ∧
    (e.makeGuess letter).2.view = (makeGuess e.view letter).2 ∧
    (e.makeGuess letter).2.WellFormed := by
  obtain ⟨w1, w2, w3⟩ := hwf
  have hg := heap_read_push_same e.heap e.state.guessedLetters letter w1
  have hh := heap_read_push_other e.heap e.state.guessedLetters e.state.hintLetters letter w3
  have hlen : (e.heap.push e.state.guessedLetters letter).length = e.heap.length := by
    simp [Heap.push]
  have hwf' : ∀ st : StateObject, st.guessedLetters = e.state.guessedLetters →
      st.hintLetters = e.state.hintLetters →
      (Engine.mk (e.heap.push e.state.guessedLetters letter) st).WellFormed := by
    intro st h1 h2
    refine ⟨?_, ?_, ?_⟩
    · show st.guessedLetters < (e.heap.push e.state.guessedLetters letter).length
      rw [hlen, h1]; exact w1
    · show st.hintLetters < (e.heap.push e.state.guessedLetters letter).length
      rw [hlen, h2]; exact w2
    · show st.guessedLetters ≠ st.hintLetters
      rw [h1, h2]; exact w3
  unfold Engine.makeGuess makeGuess
  have hview : e.view.guessedLetters = e.heap.read e.state.guessedLetters := rfl
  have hover : e.view.gameOver = e.state.gameOver := rfl
  rw [hview, hover]
  split
  · exact ⟨rfl, rfl, w1, w2, w3⟩
  · rcases Option.eq_none_or_eq_some e.state.currentWord with hw | ⟨word, hw⟩
    · have hw' : e.view.currentWord = none := hw
      simp only [hw, hw']
      refine ⟨trivial, ?_, hwf' _ rfl rfl⟩
      simp only [Engine.view, hg, hh, hw]
    · have hw' : e.view.currentWord = some word := hw
      simp only [hw, hw', hg]
      split
      · have hwr : e.view.wrongGuesses = e.state.wrongGuesses := rfl
        have hmx : e.view.maxWrongGuesses = e.state.maxWrongGuesses := rfl
        rw [hwr, hmx]
        split
        · refine ⟨rfl, ?_, hwf' _ rfl rfl⟩
          simp only [Engine.view, hg, hh, hw]
        · refine ⟨rfl, ?_, hwf' _ rfl rfl⟩
          simp only [Engine.view, hg, hh, hw]
      · split
        · refine ⟨rfl, ?_, hwf' _ rfl rfl⟩
          simp only [Engine.view, hg, hh, hw]
        · refine ⟨rfl, ?_, hwf' _ rfl rfl⟩
          simp only [Engine.view, hg, hh, hw]

end Hangman
